import Mathlib

/-
Verification of the points-ledger service (src/index.js).

The service keeps a SQLite table
  Points(id INTEGER PRIMARY KEY UNIQUE, payer TEXT NOT NULL,
         points INTEGER NOT NULL, timestamp TEXT NOT NULL)
and exposes three routes:

  POST /add      - validates payer / points / timestamp with JS falsy checks,
                   inserts a row, answers 200 with the assigned id;
  POST /spend    - validates points with a falsy check, reads the whole table
                   ORDER BY timestamp, rejects with a 400 plain-text message when
                   the sum of all points is smaller than the request, otherwise
                   walks the rows oldest first deducting min(remaining, row.points)
                   from each positive row, updating the rows and accumulating a
                   per-payer summary object, and answers 200 with the summary;
  GET  /balance  - folds all rows into a payer -> sum-of-points object.

The embedding below is a direct translation of those handlers.  JS objects used
as string-keyed maps are modelled as insertion-ordered association lists, the
JS falsy test on a number as comparison with 0 and on a string as comparison
with "", and SQLite TEXT comparison (used by ORDER BY timestamp) as
lexicographic comparison of the code points of the string.
-/

/-- One row of the Points table. -/
structure Grant where
  id : Nat
  payer : String
  points : Int
  timestamp : String
deriving DecidableEq

/-- Lexicographic strict comparison of code-point lists; kernel-reducible model
of SQLite TEXT comparison. -/
def listCharLt : List Char → List Char → Bool
  | [], [] => false
  | [], _ :: _ => true
  | _ :: _, [] => false
  | a :: as, b :: bs =>
    if a.toNat < b.toNat then true
    else if b.toNat < a.toNat then false
    else listCharLt as bs

/-- Strict order on timestamps (TEXT comparison). -/
def tsLt (a b : String) : Bool := listCharLt a.data b.data

/-- Reflexive order on timestamps: a comes no later than b. -/
def tsLe (a b : String) : Bool := !(listCharLt b.data a.data)

/-- The sum the /spend handler computes with
`pointsRecord.reduce((prev, data) => prev + data.points, 0)`:
the points of ALL rows, whatever their sign. -/
def totalPoints (rows : List Grant) : Int := (rows.map Grant.points).sum

/-- Sum of only the positive (spendable) points of a snapshot.  Not computed by
the code; used to compare with `totalPoints`. -/
def posSum (rows : List Grant) : Int :=
  (rows.map (fun g => if 0 < g.points then g.points else 0)).sum

/-- JS property read `obj[k]` on a string-keyed object modelled as an
insertion-ordered association list: first binding of the key, if any. -/
def objGet (k : String) : List (String × Int) → Option Int
  | [] => none
  | e :: t => if k = e.1 then some e.2 else objGet k t

/-- The summary accumulation of the /spend loop:
`spendSummary[payer] ? spendSummary[payer] -= deduct
                     : spendSummary[payer] = (-1) * deduct`.
An existing non-zero (truthy) value is decremented, an existing zero (falsy)
value is overwritten with `-deduct`, an absent key is appended with `-deduct`. -/
def summaryAdd (s : List (String × Int)) (k : String) (d : Int) : List (String × Int) :=
  match objGet k s with
  | some v =>
    if v = 0 then s.map (fun e => if e.1 = k then (e.1, -d) else e)
    else s.map (fun e => if e.1 = k then (e.1, e.2 - d) else e)
  | none => s ++ [(k, -d)]

/-- Trace of one iteration of the /spend loop that touched a grant: the
`db.run(UPDATE_POINTS_SQL, newPoints, id)` call together with the payer and the
amount `pointsDeduced` that was deducted. -/
structure Deduction where
  id : Nat
  payer : String
  deduct : Int
  newPoints : Int
deriving DecidableEq

/-- The /spend loop.  Walks the snapshot in order; stops when `remaining <= 0`;
skips rows with non-positive points; deducts `min(remaining, points)` from each
positive row, recording the row update and accumulating the summary object.
Returns the list of row updates in order and the final summary. -/
def spendLoop : List Grant → Int → List (String × Int) → List Deduction × List (String × Int)
  | [], _, s => ([], s)
  | g :: rest, remaining, s =>
    if remaining ≤ 0 then ([], s)
    else if 0 < g.points then
      let d := min remaining g.points
      let res := spendLoop rest (remaining - d) (summaryAdd s g.payer d)
      (⟨g.id, g.payer, d, g.points - d⟩ :: res.1, res.2)
    else spendLoop rest remaining s

/-- The statement `UPDATE Points SET points = ? WHERE id = ?`. -/
def updatePointsSql (rows : List Grant) (i : Nat) (p : Int) : List Grant :=
  rows.map (fun g => if g.id = i then { g with points := p } else g)

/-- Apply the row updates recorded by the /spend loop to the table. -/
def applyDeductions (rows : List Grant) (ds : List Deduction) : List Grant :=
  ds.foldl (fun r d => updatePointsSql r d.id d.newPoints) rows

/-- Outcome of the /spend route.
`validationError`      = 400 with the JSON message naming the points field;
`insufficientBalance`  = 400 with the plain-text not-enough-points message;
`success s`            = 200 with the summary entries as `{payer, points}`. -/
inductive SpendOutcome where
  | validationError : SpendOutcome
  | insufficientBalance : SpendOutcome
  | success : List (String × Int) → SpendOutcome
deriving DecidableEq

/-- The /spend handler on the snapshot returned by
`SELECT * FROM Points ORDER BY timestamp`.  `reqPoints` is the `points` field
of the body (`none` when absent); the falsy check rejects exactly 0.  Returns
the response and the resulting table rows. -/
def spend (reqPoints : Option Int) (pointsRecord : List Grant) : SpendOutcome × List Grant :=
  match reqPoints with
  | none => (SpendOutcome.validationError, pointsRecord)
  | some p =>
    if p = 0 then (SpendOutcome.validationError, pointsRecord)
    else if totalPoints pointsRecord < p then (SpendOutcome.insufficientBalance, pointsRecord)
    else (SpendOutcome.success (spendLoop pointsRecord p []).2,
          applyDeductions pointsRecord (spendLoop pointsRecord p []).1)

/-- One /balance fold step:
`result[payer] === undefined ? result[payer] = points : result[payer] += points`. -/
def balanceStep (acc : List (String × Int)) (g : Grant) : List (String × Int) :=
  match objGet g.payer acc with
  | none => acc ++ [(g.payer, g.points)]
  | some _ => acc.map (fun e => if e.1 = g.payer then (e.1, e.2 + g.points) else e)

/-- The /balance handler: fold the ordered snapshot into a payer -> sum object. -/
def balance (pointsRecord : List Grant) : List (String × Int) :=
  pointsRecord.foldl balanceStep []

/-- Sum of the points of the grants of one payer in a snapshot. -/
def payerSum (rows : List Grant) (k : String) : Int :=
  ((rows.filter (fun g => g.payer = k)).map Grant.points).sum

/-- Total deducted from one payer by a list of recorded deductions. -/
def totalDeducted (ds : List Deduction) (k : String) : Int :=
  ((ds.filter (fun d => d.payer = k)).map Deduction.deduct).sum

/-- The keys of a JS object in insertion order: fold that appends a key when it
is not present yet. -/
def firstOccs (l : List String) : List String :=
  l.foldl (fun acc k => if k ∈ acc then acc else acc ++ [k]) []

/-- Body of a /add request; `none` models an absent field. -/
structure AddRequest where
  payer : Option String
  points : Option Int
  timestamp : Option String
deriving DecidableEq

/-- Outcome of the /add route.  The three `missing*` constructors are the 400
responses whose JSON message names the offending field; `added id` is the 200
response `{msg: "Successfully added!", id}`. -/
inductive AddOutcome where
  | missingPayer : AddOutcome
  | missingPoints : AddOutcome
  | missingTimestamp : AddOutcome
  | added : Nat → AddOutcome
deriving DecidableEq

/-- The /add handler.  The source checks `!payer`, `!points`, `!timestamp` in
that order (falsy: absent field, empty string, number 0) and otherwise runs
`INSERT ... RETURNING id`; `nextId` is the id the store assigns to the new
row. -/
def addHandler (req : AddRequest) (rows : List Grant) (nextId : Nat) : AddOutcome × List Grant :=
  if req.payer.getD "" = "" then (AddOutcome.missingPayer, rows)
  else if req.points.getD 0 = 0 then (AddOutcome.missingPoints, rows)
  else if req.timestamp.getD "" = "" then (AddOutcome.missingTimestamp, rows)
  else (AddOutcome.added nextId,
        rows ++ [⟨nextId, req.payer.getD "", req.points.getD 0, req.timestamp.getD ""⟩])

/-- Stable insertion of a grant into a timestamp-sorted list: the new grant
goes before the first grant that is not strictly older, so grants with equal
timestamps keep their original relative order. -/
def insertByTs (g : Grant) : List Grant → List Grant
  | [] => [g]
  | h :: t => if tsLt h.timestamp g.timestamp then h :: insertByTs g t else g :: h :: t

/-- The query `SELECT * FROM Points ORDER BY timestamp` as a stable sort of
the stored rows. -/
def sortByTimestamp : List Grant → List Grant
  | [] => []
  | g :: t => insertByTs g (sortByTimestamp t)

/-- The persistent state: the stored rows and the next id the store will
assign. -/
structure DbState where
  rows : List Grant
  nextId : Nat
deriving DecidableEq

/-- Empty table, ids assigned from 1. -/
def initialDb : DbState := ⟨[], 1⟩

/-- One client operation against the service. -/
inductive Op where
  | addOp : AddRequest → Op
  | spendOp : Option Int → Op
  | balanceOp : Op
deriving DecidableEq

/-- Run one operation against the state.  /spend reads the rows ordered by
timestamp and writes the per-row updates back; /balance mutates nothing. -/
def applyOp (s : DbState) : Op → DbState
  | Op.addOp req =>
    match addHandler req s.rows s.nextId with
    | (AddOutcome.added _, rows) => ⟨rows, s.nextId + 1⟩
    | (_, rows) => ⟨rows, s.nextId⟩
  | Op.spendOp p => ⟨(spend p (sortByTimestamp s.rows)).2, s.nextId⟩
  | Op.balanceOp => s

/-- Run a sequence of operations from a state. -/
def runOps (s : DbState) (ops : List Op) : DbState := ops.foldl applyOp s

/-- Bool guard used to state the amended C4: an /add operation carries a
non-negative points value (other operations are unconstrained). -/
def addNonneg : Op → Bool
  | Op.addOp req => 0 ≤ req.points.getD 0
  | _ => true

/-! ### Basic lemmas about the spend loop -/

/-- A non-positive remaining amount makes the loop break immediately: no row
update, summary unchanged. -/
theorem spendLoop_nonpos (l : List Grant) (r : Int) (s : List (String × Int))
    (h : r ≤ 0) : spendLoop l r s = ([], s) := by
  cases l with
  | nil => rfl
  | cons g rest => simp [spendLoop, h]

/-- Applying no row updates leaves the table unchanged. -/
theorem applyDeductions_nil (rows : List Grant) : applyDeductions rows [] = rows := rfl

/-! ### C2 -/

/-- C2: a /spend request that passes validation but asks for more than the sum
of all stored points is answered with the 400 plain-text insufficient-balance
response and the table is left exactly as it was — no row is mutated. -/
theorem C2_insufficient_no_mutation (p : Int) (snap : List Grant)
    (hp : p ≠ 0) (hlt : totalPoints snap < p) :
    spend (some p) snap = (SpendOutcome.insufficientBalance, snap) := by
  simp [spend, hp, hlt]

/-- Witness for C2 at a concrete input: one grant of 100 points, request 150. -/
theorem C2_insufficient_no_mutation_witness :
    spend (some 150) [⟨1, "A", 100, "t"⟩] =
      (SpendOutcome.insufficientBalance, [⟨1, "A", 100, "t"⟩]) :=
  C2_insufficient_no_mutation 150 [⟨1, "A", 100, "t"⟩] (by decide) (by decide)

/-! ### C5 -/

/-- C5 counterexample: a /spend request for -1 points is NOT rejected as a
validation error — the falsy check lets every non-zero number through, so the
claim that zero or negative amounts are rejected upstream is false. -/
theorem C5_counterexample :
    ¬ (spend (some (-1)) []).1 = SpendOutcome.validationError := by decide

/-- C5 amended: a /spend request whose points value is 0 or absent is rejected
by the falsy check with the 400 validation response, for every snapshot and
without mutating anything — so the allocation loop never runs with a zero
requested amount (negative amounts, however, pass this validation). -/
theorem C5_zero_or_missing_rejected (snap : List Grant) :
    spend (some 0) snap = (SpendOutcome.validationError, snap)
    ∧ spend none snap = (SpendOutcome.validationError, snap) := by
  constructor <;> simp [spend]

/-! ### C9 -/

/-- C9: a /spend request for a strictly negative amount passes the falsy
validation, passes the insufficiency check whenever the total stored points are
at least that negative amount, and then the loop breaks immediately: the
response is 200 with an empty summary and no row is mutated. -/
theorem C9_negative_request_noop (p : Int) (snap : List Grant)
    (hneg : p < 0) (hsum : p ≤ totalPoints snap) :
    spend (some p) snap = (SpendOutcome.success [], snap) := by
  have hp : p ≠ 0 := ne_of_lt hneg
  have hnl : ¬ totalPoints snap < p := not_lt.mpr hsum
  have hloop : spendLoop snap p [] = ([], []) := spendLoop_nonpos snap p [] (le_of_lt hneg)
  simp [spend, hp, hnl, hloop, applyDeductions]

/-- Witness for C9 at a concrete input: request -5 against one grant of 100. -/
theorem C9_negative_request_noop_witness :
    spend (some (-5)) [⟨1, "A", 100, "t"⟩] =
      (SpendOutcome.success [], [⟨1, "A", 100, "t"⟩]) :=
  C9_negative_request_noop (-5) [⟨1, "A", 100, "t"⟩] (by decide) (by decide)

/-! ### C10 -/

/-- C10: for every validated /spend request the insufficient-balance 400 is
returned exactly when the sum of the points of ALL rows — zero- and
negative-point rows included — is below the request; and concretely, a snapshot
holding a grant of 100 and a grant of -60 rejects a request for 50 even though
the positive (spendable) points alone would cover it. -/
theorem C10_insufficiency_uses_signed_total :
    (∀ (p : Int) (snap : List Grant), p ≠ 0 →
      ((spend (some p) snap).1 = SpendOutcome.insufficientBalance ↔ totalPoints snap < p))
    ∧ (spend (some 50) [⟨1, "A", 100, "t1"⟩, ⟨2, "B", -60, "t2"⟩]).1 =
        SpendOutcome.insufficientBalance
    ∧ (50 : Int) ≤ posSum [⟨1, "A", 100, "t1"⟩, ⟨2, "B", -60, "t2"⟩] := by
  refine ⟨?_, by decide, by decide⟩
  intro p snap hp
  by_cases hlt : totalPoints snap < p <;> simp [spend, hp, hlt]

/-- Witness for C10 at a concrete input: the equivalence instantiated on the
empty snapshot with request 1 (0 < 1, so the request is rejected). -/
theorem C10_insufficiency_uses_signed_total_witness :
    (spend (some 1) []).1 = SpendOutcome.insufficientBalance ↔ totalPoints [] < 1 :=
  C10_insufficiency_uses_signed_total.1 1 [] (by decide)

/-! ### C8 -/

/-- C8: /add answers 400 naming the first missing (falsy) field without
touching the store — in particular a points value of exactly 0 is rejected as
missing — and otherwise inserts the grant and answers 200 with the
store-assigned id. -/
theorem C8_add_validation_and_insert (req : AddRequest) (rows : List Grant) (nextId : Nat) :
    (req.payer.getD "" = "" → addHandler req rows nextId = (AddOutcome.missingPayer, rows))
    ∧ (req.payer.getD "" ≠ "" → req.points.getD 0 = 0 →
        addHandler req rows nextId = (AddOutcome.missingPoints, rows))
    ∧ (req.payer.getD "" ≠ "" → req.points.getD 0 ≠ 0 → req.timestamp.getD "" = "" →
        addHandler req rows nextId = (AddOutcome.missingTimestamp, rows))
    ∧ (req.payer.getD "" ≠ "" → req.points.getD 0 ≠ 0 → req.timestamp.getD "" ≠ "" →
        addHandler req rows nextId =
          (AddOutcome.added nextId,
           rows ++ [⟨nextId, req.payer.getD "", req.points.getD 0, req.timestamp.getD ""⟩])) := by
  refine ⟨?_, ?_, ?_, ?_⟩ <;> intros <;> simp [addHandler, *]

/-- Witness for C8 at a concrete input: a request with points exactly 0 is
rejected as missing points and the store is untouched. -/
theorem C8_add_validation_and_insert_witness :
    addHandler ⟨some "DANNON", some 0, some "2020-11-02T14:00:00Z"⟩ [] 1 =
      (AddOutcome.missingPoints, []) :=
  (C8_add_validation_and_insert ⟨some "DANNON", some 0, some "2020-11-02T14:00:00Z"⟩ [] 1).2.1
    (by decide) (by decide)


/-! ### Lemmas about the summary object -/

/-- Sum of the values of a summary object. -/
def sumValues (s : List (String × Int)) : Int := (s.map Prod.snd).sum

theorem objGet_eq_none_iff (k : String) (s : List (String × Int)) :
    objGet k s = none ↔ k ∉ s.map Prod.fst := by
  induction s with
  | nil => simp [objGet]
  | cons e t ih => by_cases h : k = e.1 <;> simp [objGet, h, ih]

theorem objGet_append (k : String) (s t : List (String × Int)) :
    objGet k (s ++ t) = match objGet k s with
      | some v => some v
      | none => objGet k t := by
  induction s with
  | nil => simp [objGet]
  | cons e s' ih => by_cases h : k = e.1 <;> simp [objGet, h, ih]

theorem objGet_map_upd_self (s : List (String × Int)) (k : String)
    (f : String × Int → Int) (v : Int) (h : objGet k s = some v) :
    objGet k (s.map (fun e => if e.1 = k then (e.1, f e) else e)) = some (f (k, v)) := by
  induction s with
  | nil => simp [objGet] at h
  | cons e t ih =>
    obtain ⟨e1, e2⟩ := e
    by_cases hk : k = e1
    · subst hk
      simp [objGet] at h
      subst h
      simp [objGet]
    · have hk' : ¬ e1 = k := fun hc => hk hc.symm
      simp [objGet, hk, hk'] at h ⊢
      exact ih h

theorem objGet_map_upd_ne (s : List (String × Int)) (k k' : String)
    (f : String × Int → Int) (h : k' ≠ k) :
    objGet k' (s.map (fun e => if e.1 = k then (e.1, f e) else e)) = objGet k' s := by
  induction s with
  | nil => simp
  | cons e t ih =>
    by_cases he : e.1 = k
    · have hne : ¬ k' = e.1 := fun hc => h (hc.trans he)
      simp [objGet, he, hne, ih, h]
    · by_cases hk' : k' = e.1 <;> simp [objGet, he, hk', ih]

theorem map_upd_of_not_mem (s : List (String × Int)) (k : String)
    (f : String × Int → Int) (h : k ∉ s.map Prod.fst) :
    s.map (fun e => if e.1 = k then (e.1, f e) else e) = s := by
  induction s with
  | nil => rfl
  | cons e t ih =>
    simp at h
    have he : ¬ e.1 = k := fun hc => h.1 hc.symm
    simp [he, ih (by simpa using h.2)]

theorem map_fst_upd (s : List (String × Int)) (k : String) (f : String × Int → Int) :
    (s.map (fun e => if e.1 = k then (e.1, f e) else e)).map Prod.fst = s.map Prod.fst := by
  induction s with
  | nil => rfl
  | cons e t ih => by_cases h : e.1 = k <;> simp [h, ih]

theorem summaryAdd_eq_append (s : List (String × Int)) (k : String) (d : Int)
    (h : objGet k s = none) : summaryAdd s k d = s ++ [(k, -d)] := by
  simp [summaryAdd, h]

theorem summaryAdd_eq_overwrite (s : List (String × Int)) (k : String) (d : Int)
    (h : objGet k s = some 0) :
    summaryAdd s k d = s.map (fun e => if e.1 = k then (e.1, -d) else e) := by
  simp [summaryAdd, h]

theorem summaryAdd_eq_decrement (s : List (String × Int)) (k : String) (d v : Int)
    (h : objGet k s = some v) (hv : v ≠ 0) :
    summaryAdd s k d = s.map (fun e => if e.1 = k then (e.1, e.2 - d) else e) := by
  simp [summaryAdd, h, hv]

theorem summaryAdd_keys (s : List (String × Int)) (k : String) (d : Int) :
    (summaryAdd s k d).map Prod.fst =
      if k ∈ s.map Prod.fst then s.map Prod.fst else s.map Prod.fst ++ [k] := by
  cases h : objGet k s with
  | none =>
    have hk : k ∉ s.map Prod.fst := (objGet_eq_none_iff k s).mp h
    rw [summaryAdd_eq_append s k d h]
    simp [hk]
  | some v =>
    have hk : k ∈ s.map Prod.fst := by
      by_contra hc
      rw [(objGet_eq_none_iff k s).mpr hc] at h
      exact Option.noConfusion h
    by_cases hv : v = 0
    · subst hv
      rw [summaryAdd_eq_overwrite s k d h, map_fst_upd]
      simp [hk]
    · rw [summaryAdd_eq_decrement s k d v h hv, map_fst_upd]
      simp [hk]

theorem summaryAdd_mem_keys (s : List (String × Int)) (k k' : String) (d : Int) :
    k' ∈ (summaryAdd s k d).map Prod.fst ↔ k' ∈ s.map Prod.fst ∨ k' = k := by
  rw [summaryAdd_keys]
  by_cases hk : k ∈ s.map Prod.fst
  · rw [if_pos hk]
    constructor
    · exact fun h => Or.inl h
    · rintro (h | rfl)
      · exact h
      · exact hk
  · rw [if_neg hk]
    simp

theorem summaryAdd_nodup (s : List (String × Int)) (k : String) (d : Int)
    (h : (s.map Prod.fst).Nodup) : ((summaryAdd s k d).map Prod.fst).Nodup := by
  rw [summaryAdd_keys]
  by_cases hk : k ∈ s.map Prod.fst
  · simpa [hk]
  · simp [hk, List.nodup_append, h]

theorem summaryAdd_objGet_self (s : List (String × Int)) (k : String) (d : Int) :
    objGet k (summaryAdd s k d) = some ((objGet k s).getD 0 - d) := by
  cases h : objGet k s with
  | none =>
    rw [summaryAdd_eq_append s k d h, objGet_append, h]
    simp [objGet]
  | some v =>
    by_cases hv : v = 0
    · subst hv
      rw [summaryAdd_eq_overwrite s k d h, objGet_map_upd_self s k (fun _ => -d) 0 h]
      simp
    · rw [summaryAdd_eq_decrement s k d v h hv, objGet_map_upd_self s k (fun e => e.2 - d) v h]
      simp

theorem summaryAdd_objGet_ne (s : List (String × Int)) (k k' : String) (d : Int)
    (h : k' ≠ k) : objGet k' (summaryAdd s k d) = objGet k' s := by
  cases hg : objGet k s with
  | none =>
    rw [summaryAdd_eq_append s k d hg, objGet_append]
    cases hg' : objGet k' s with
    | none => simp [objGet, h]
    | some v => simp
  | some v =>
    by_cases hv : v = 0
    · subst hv
      rw [summaryAdd_eq_overwrite s k d hg, objGet_map_upd_ne s k k' _ h]
    · rw [summaryAdd_eq_decrement s k d v hg hv, objGet_map_upd_ne s k k' _ h]

theorem sum_map_upd (s : List (String × Int)) (k : String) (f : String × Int → Int)
    (v : Int) (hnd : (s.map Prod.fst).Nodup) (h : objGet k s = some v) :
    sumValues (s.map (fun e => if e.1 = k then (e.1, f e) else e)) =
      sumValues s - v + f (k, v) := by
  induction s with
  | nil => simp [objGet] at h
  | cons e t ih =>
    obtain ⟨e1, e2⟩ := e
    simp only [List.map_cons, List.nodup_cons] at hnd
    by_cases hk : k = e1
    · subst hk
      simp [objGet] at h
      subst h
      have ht : t.map (fun e => if e.1 = k then (e.1, f e) else e) = t :=
        map_upd_of_not_mem t k f hnd.1
      simp [sumValues, ht]
      ring
    · have hk' : ¬ e1 = k := fun hc => hk hc.symm
      simp [objGet, hk] at h
      have hih := ih hnd.2 h
      simp [sumValues, hk'] at hih ⊢
      omega

theorem summaryAdd_sum (s : List (String × Int)) (k : String) (d : Int)
    (hnd : (s.map Prod.fst).Nodup) :
    sumValues (summaryAdd s k d) = sumValues s - d := by
  cases h : objGet k s with
  | none =>
    rw [summaryAdd_eq_append s k d h]
    simp [sumValues]
    omega
  | some v =>
    by_cases hv : v = 0
    · subst hv
      rw [summaryAdd_eq_overwrite s k d h, sum_map_upd s k (fun _ => -d) 0 hnd h]
      ring
    · rw [summaryAdd_eq_decrement s k d v h hv, sum_map_upd s k (fun e => e.2 - d) v hnd h]
      ring

theorem summaryAdd_values_neg (s : List (String × Int)) (k : String) (d : Int)
    (hs : ∀ e ∈ s, e.2 < 0) (hd : 0 < d) :
    ∀ e ∈ summaryAdd s k d, e.2 < 0 := by
  cases h : objGet k s with
  | none =>
    rw [summaryAdd_eq_append s k d h]
    intro e he
    rcases List.mem_append.mp he with h1 | h1
    · exact hs e h1
    · simp at h1
      rw [h1]
      simp
      omega
  | some v =>
    have main : ∀ (f : String × Int → Int), (∀ e ∈ s, e.1 = k → f e < 0) →
        ∀ e ∈ s.map (fun e => if e.1 = k then (e.1, f e) else e), e.2 < 0 := by
      intro f hf e he
      rcases List.mem_map.mp he with ⟨e0, he0, hfe⟩
      by_cases h0 : e0.1 = k
      · rw [if_pos h0] at hfe
        rw [← hfe]
        exact hf e0 he0 h0
      · rw [if_neg h0] at hfe
        rw [← hfe]
        exact hs e0 he0
    by_cases hv : v = 0
    · subst hv
      rw [summaryAdd_eq_overwrite s k d h]
      exact main (fun _ => -d) (fun e0 _ _ => by simp; omega)
    · rw [summaryAdd_eq_decrement s k d v h hv]
      refine main (fun e => e.2 - d) (fun e0 he0 _ => ?_)
      have := hs e0 he0
      show e0.2 - d < 0
      omega

/-! ### Invariants of the spend loop -/

theorem totalDeducted_cons (d : Deduction) (ds : List Deduction) (k : String) :
    totalDeducted (d :: ds) k = (if d.payer = k then d.deduct else 0) + totalDeducted ds k := by
  by_cases h : d.payer = k <;> simp [totalDeducted, List.filter_cons, h]

theorem posSum_cons (g : Grant) (t : List Grant) :
    posSum (g :: t) = (if 0 < g.points then g.points else 0) + posSum t := by
  simp [posSum]

theorem spendLoop_cons_pos (g : Grant) (rest : List Grant) (r : Int)
    (s : List (String × Int)) (h1 : ¬ r ≤ 0) (h2 : 0 < g.points) :
    spendLoop (g :: rest) r s =
      (⟨g.id, g.payer, min r g.points, g.points - min r g.points⟩ ::
        (spendLoop rest (r - min r g.points) (summaryAdd s g.payer (min r g.points))).1,
       (spendLoop rest (r - min r g.points) (summaryAdd s g.payer (min r g.points))).2) := by
  simp [spendLoop, h1, h2]

theorem spendLoop_cons_skip (g : Grant) (rest : List Grant) (r : Int)
    (s : List (String × Int)) (h1 : ¬ r ≤ 0) (h2 : ¬ 0 < g.points) :
    spendLoop (g :: rest) r s = spendLoop rest r s := by
  simp [spendLoop, h1, h2]

/-- The final summary object always has pairwise distinct keys. -/
theorem spendLoop_nodupKeys (l : List Grant) : ∀ (r : Int) (s : List (String × Int)),
    (s.map Prod.fst).Nodup → (((spendLoop l r s).2).map Prod.fst).Nodup := by
  induction l with
  | nil => intro r s h; simpa [spendLoop]
  | cons g rest ih =>
    intro r s h
    by_cases h1 : r ≤ 0
    · rw [spendLoop_nonpos _ _ _ h1]
      exact h
    · by_cases h2 : 0 < g.points
      · rw [spendLoop_cons_pos g rest r s h1 h2]
        exact ih _ _ (summaryAdd_nodup _ _ _ h)
      · rw [spendLoop_cons_skip g rest r s h1 h2]
        exact ih _ _ h

/-- The value the final summary holds for a payer is its initial value minus
everything the recorded deductions took from that payer. -/
theorem spendLoop_objGet (l : List Grant) : ∀ (r : Int) (s : List (String × Int)) (k : String),
    (objGet k (spendLoop l r s).2).getD 0 =
      (objGet k s).getD 0 - totalDeducted (spendLoop l r s).1 k := by
  induction l with
  | nil => intro r s k; simp [spendLoop, totalDeducted]
  | cons g rest ih =>
    intro r s k
    by_cases h1 : r ≤ 0
    · rw [spendLoop_nonpos _ _ _ h1]
      simp [totalDeducted]
    · by_cases h2 : 0 < g.points
      · rw [spendLoop_cons_pos g rest r s h1 h2]
        have hih := ih (r - min r g.points) (summaryAdd s g.payer (min r g.points)) k
        rw [show ((⟨g.id, g.payer, min r g.points, g.points - min r g.points⟩ ::
              (spendLoop rest (r - min r g.points)
                (summaryAdd s g.payer (min r g.points))).1,
             (spendLoop rest (r - min r g.points)
                (summaryAdd s g.payer (min r g.points))).2) :
              List Deduction × List (String × Int)).2 =
            (spendLoop rest (r - min r g.points)
              (summaryAdd s g.payer (min r g.points))).2 from rfl]
        rw [hih, totalDeducted_cons]
        by_cases hk : k = g.payer
        · subst hk
          rw [summaryAdd_objGet_self]
          simp
          omega
        · rw [summaryAdd_objGet_ne _ _ _ _ hk]
          have hne : ¬ (⟨g.id, g.payer, min r g.points,
              g.points - min r g.points⟩ : Deduction).payer = k := fun hc => hk hc.symm
          rw [if_neg hne]
          omega
      · rw [spendLoop_cons_skip g rest r s h1 h2]
        exact ih r s k

/-- A payer has a summary entry exactly when it had one already or some
recorded deduction touched one of its grants. -/
theorem spendLoop_mem_keys (l : List Grant) : ∀ (r : Int) (s : List (String × Int)) (k : String),
    k ∈ ((spendLoop l r s).2).map Prod.fst ↔
      k ∈ s.map Prod.fst ∨ ∃ d ∈ (spendLoop l r s).1, d.payer = k := by
  induction l with
  | nil => intro r s k; simp [spendLoop]
  | cons g rest ih =>
    intro r s k
    by_cases h1 : r ≤ 0
    · rw [spendLoop_nonpos _ _ _ h1]
      simp
    · by_cases h2 : 0 < g.points
      · rw [spendLoop_cons_pos g rest r s h1 h2]
        constructor
        · intro hmem
          rcases (ih _ _ k).mp hmem with hs | ⟨d, hd, hdk⟩
          · rcases (summaryAdd_mem_keys s g.payer k _).mp hs with hs' | rfl
            · exact Or.inl hs'
            · exact Or.inr ⟨⟨g.id, g.payer, min r g.points, g.points - min r g.points⟩,
                List.mem_cons_self _ _, rfl⟩
          · exact Or.inr ⟨d, List.mem_cons_of_mem _ hd, hdk⟩
        · intro hmem
          rcases hmem with hs | ⟨d, hd, hdk⟩
          · exact (ih _ _ k).mpr
              (Or.inl ((summaryAdd_mem_keys s g.payer k _).mpr (Or.inl hs)))
          · rcases List.mem_cons.mp hd with rfl | hd'
            · exact (ih _ _ k).mpr
                (Or.inl ((summaryAdd_mem_keys s g.payer k _).mpr (Or.inr hdk.symm)))
            · exact (ih _ _ k).mpr (Or.inr ⟨d, hd', hdk⟩)
      · rw [spendLoop_cons_skip g rest r s h1 h2]
        exact ih r s k

/-- The keys of the final summary are the initial keys extended, in first-touch
order, by the payers of the recorded deductions. -/
theorem spendLoop_keys_order (l : List Grant) : ∀ (r : Int) (s : List (String × Int)),
    ((spendLoop l r s).2).map Prod.fst =
      ((spendLoop l r s).1.map Deduction.payer).foldl
        (fun acc k => if k ∈ acc then acc else acc ++ [k]) (s.map Prod.fst) := by
  induction l with
  | nil => intro r s; simp [spendLoop]
  | cons g rest ih =>
    intro r s
    by_cases h1 : r ≤ 0
    · rw [spendLoop_nonpos _ _ _ h1]
      simp
    · by_cases h2 : 0 < g.points
      · rw [spendLoop_cons_pos g rest r s h1 h2]
        rw [ih, summaryAdd_keys]
        simp
      · rw [spendLoop_cons_skip g rest r s h1 h2]
        exact ih r s

/-- Every value in the final summary is strictly negative (starting from a
summary whose values all are). -/
theorem spendLoop_values_neg (l : List Grant) : ∀ (r : Int) (s : List (String × Int)),
    (∀ e ∈ s, e.2 < 0) → ∀ e ∈ (spendLoop l r s).2, e.2 < 0 := by
  induction l with
  | nil => intro r s h; simpa [spendLoop] using h
  | cons g rest ih =>
    intro r s h
    by_cases h1 : r ≤ 0
    · rw [spendLoop_nonpos _ _ _ h1]
      exact h
    · by_cases h2 : 0 < g.points
      · rw [spendLoop_cons_pos g rest r s h1 h2]
        refine ih _ _ (summaryAdd_values_neg s g.payer _ h ?_)
        exact lt_min (by omega) h2
      · rw [spendLoop_cons_skip g rest r s h1 h2]
        exact ih _ _ h

/-- Every recorded deduction comes from a positive grant of the snapshot,
deducts a strictly positive amount bounded by that grant, and writes back
exactly the grant minus the deduction. -/
theorem spendLoop_deds (l : List Grant) : ∀ (r : Int) (s : List (String × Int)),
    ∀ d ∈ (spendLoop l r s).1,
      ∃ g ∈ l, d.id = g.id ∧ d.payer = g.payer ∧ 0 < g.points ∧ 0 < d.deduct ∧
        d.deduct ≤ g.points ∧ d.newPoints = g.points - d.deduct := by
  induction l with
  | nil => intro r s d hd; simp [spendLoop] at hd
  | cons g rest ih =>
    intro r s d hd
    by_cases h1 : r ≤ 0
    · rw [spendLoop_nonpos _ _ _ h1] at hd
      simp at hd
    · by_cases h2 : 0 < g.points
      · rw [spendLoop_cons_pos g rest r s h1 h2] at hd
        rcases List.mem_cons.mp hd with rfl | hd'
        · exact ⟨g, List.mem_cons_self _ _, rfl, rfl, h2, lt_min (by omega) h2,
            min_le_right _ _, rfl⟩
        · rcases ih _ _ d hd' with ⟨g', hg', hrest⟩
          exact ⟨g', List.mem_cons_of_mem _ hg', hrest⟩
      · rw [spendLoop_cons_skip g rest r s h1 h2] at hd
        rcases ih _ _ d hd with ⟨g', hg', hrest⟩
        exact ⟨g', List.mem_cons_of_mem _ hg', hrest⟩

/-- When the request is positive and covered by the positive points of the
snapshot, the loop deducts exactly the requested amount: the summary total
drops by the request. -/
theorem spendLoop_sum (l : List Grant) : ∀ (r : Int) (s : List (String × Int)),
    0 < r → r ≤ posSum l → (s.map Prod.fst).Nodup →
    sumValues (spendLoop l r s).2 = sumValues s - r := by
  induction l with
  | nil =>
    intro r s hr hle _
    simp [posSum] at hle
    omega
  | cons g rest ih =>
    intro r s hr hle hnd
    have h1 : ¬ r ≤ 0 := by omega
    by_cases h2 : 0 < g.points
    · rw [spendLoop_cons_pos g rest r s h1 h2]
      by_cases hd : r ≤ g.points
      · rw [min_eq_left hd]
        rw [show r - r = 0 by ring, spendLoop_nonpos _ _ _ (le_refl 0)]
        exact summaryAdd_sum s g.payer r hnd
      · have hgr : g.points < r := by omega
        rw [min_eq_right (le_of_lt hgr)]
        have hle' : r - g.points ≤ posSum rest := by
          rw [posSum_cons, if_pos h2] at hle
          omega
        have := ih (r - g.points) (summaryAdd s g.payer g.points) (by omega) hle'
          (summaryAdd_nodup s g.payer g.points hnd)
        rw [this, summaryAdd_sum s g.payer g.points hnd]
        ring
    · rw [spendLoop_cons_skip g rest r s h1 h2]
      refine ih r s hr ?_ hnd
      rw [posSum_cons, if_neg h2] at hle
      omega

/-! ### Applying the recorded row updates -/

/-- A property of point values that holds for every stored row and for every
value written back by the updates holds for every row of the updated table. -/
theorem applyDeductions_forall (P : Int → Prop) :
    ∀ (ds : List Deduction) (rows : List Grant),
      (∀ g ∈ rows, P g.points) → (∀ d ∈ ds, P d.newPoints) →
      ∀ g ∈ applyDeductions rows ds, P g.points := by
  intro ds
  induction ds with
  | nil => intro rows h1 _ g hg; exact h1 g hg
  | cons d ds ih =>
    intro rows h1 h2 g hg
    have hstep : applyDeductions rows (d :: ds) =
        applyDeductions (updatePointsSql rows d.id d.newPoints) ds := rfl
    rw [hstep] at hg
    refine ih _ ?_ (fun d' hd' => h2 d' (List.mem_cons_of_mem _ hd')) g hg
    intro g' hg'
    simp only [updatePointsSql, List.mem_map] at hg'
    rcases hg' with ⟨g0, hg0, hfg⟩
    by_cases hid : g0.id = d.id
    · rw [if_pos hid] at hfg
      rw [← hfg]
      exact h2 d (List.mem_cons_self _ _)
    · rw [if_neg hid] at hfg
      rw [← hfg]
      exact h1 g0 hg0

/-! ### C1 -/

theorem totalPoints_cons (g : Grant) (t : List Grant) :
    totalPoints (g :: t) = g.points + totalPoints t := by
  simp [totalPoints]

/-- On a snapshot with no negative grant the positive total and the signed
total agree. -/
theorem posSum_eq_totalPoints (l : List Grant) (h : ∀ g ∈ l, 0 ≤ g.points) :
    posSum l = totalPoints l := by
  induction l with
  | nil => rfl
  | cons g t ih =>
    rw [posSum_cons, totalPoints_cons, ih (fun g' hg' => h g' (List.mem_cons_of_mem _ hg'))]
    have hg := h g (List.mem_cons_self _ _)
    by_cases hp : 0 < g.points
    · rw [if_pos hp]
    · rw [if_neg hp]
      omega

/-- Magnitudes of all-negative values sum to the negated value sum. -/
theorem sum_abs_of_neg (s : List (String × Int)) (h : ∀ e ∈ s, e.2 < 0) :
    (s.map (fun e => |e.2|)).sum = -sumValues s := by
  induction s with
  | nil => simp [sumValues]
  | cons e t ih =>
    have he : |e.2| = -e.2 := abs_of_neg (h e (List.mem_cons_self _ _))
    have iht := ih (fun e' he' => h e' (List.mem_cons_of_mem _ he'))
    simp only [sumValues, List.map_cons, List.sum_cons] at iht ⊢
    rw [he, iht]
    ring

/-- C1: on a snapshot whose grants all have non-negative points and whose
total covers a positive request, /spend succeeds, the magnitudes of the
summary values sum to exactly the requested amount, and no resulting grant is
negative. -/
theorem C1_spend_success (p : Int) (snap : List Grant)
    (hp : 0 < p) (hnn : ∀ g ∈ snap, 0 ≤ g.points) (hsum : p ≤ totalPoints snap) :
    spend (some p) snap =
      (SpendOutcome.success (spendLoop snap p []).2,
       applyDeductions snap (spendLoop snap p []).1)
    ∧ (((spendLoop snap p []).2).map (fun e => |e.2|)).sum = p
    ∧ ∀ g ∈ applyDeductions snap (spendLoop snap p []).1, 0 ≤ g.points := by
  have hp0 : p ≠ 0 := by omega
  have hnlt : ¬ totalPoints snap < p := not_lt.mpr hsum
  refine ⟨by simp [spend, hp0, hnlt], ?_, ?_⟩
  · have hneg : ∀ e ∈ (spendLoop snap p []).2, e.2 < 0 :=
      spendLoop_values_neg snap p [] (by simp)
    have habs := sum_abs_of_neg _ hneg
    have hsum2 : sumValues (spendLoop snap p []).2 = sumValues [] - p :=
      spendLoop_sum snap p [] hp
        (by rw [posSum_eq_totalPoints snap hnn]; exact hsum) (by simp)
    rw [habs, hsum2]
    simp [sumValues]
  · refine applyDeductions_forall (fun x => 0 ≤ x) _ _ hnn ?_
    intro d hd
    rcases spendLoop_deds snap p [] d hd with ⟨g, _, _, _, _, _, hdle, hnew⟩
    rw [hnew]
    omega

/-- Witness for C1 at a concrete input: one grant of 5 points, request 3. -/
theorem C1_spend_success_witness :
    spend (some 3) [⟨1, "A", 5, "t"⟩] =
      (SpendOutcome.success (spendLoop [⟨1, "A", 5, "t"⟩] 3 []).2,
       applyDeductions [⟨1, "A", 5, "t"⟩] (spendLoop [⟨1, "A", 5, "t"⟩] 3 []).1)
    ∧ (((spendLoop [⟨1, "A", 5, "t"⟩] 3 []).2).map (fun e => |e.2|)).sum = 3
    ∧ ∀ g ∈ applyDeductions [⟨1, "A", 5, "t"⟩] (spendLoop [⟨1, "A", 5, "t"⟩] 3 []).1,
        0 ≤ g.points :=
  C1_spend_success 3 [⟨1, "A", 5, "t"⟩] (by decide) (by decide) (by decide)

/-! ### C3 -/

theorem listCharLt_irrefl (x : List Char) : listCharLt x x = false := by
  induction x with
  | nil => rfl
  | cons a t ih => simp [listCharLt, ih]

theorem tsLt_self (a : String) : tsLt a a = false := listCharLt_irrefl a.data

/-- Core of the oldest-first property: in a snapshot sorted by timestamp with
pairwise distinct ids, if the loop deducts from grant B then any strictly
older grant A with positive points was deducted down to exactly 0. -/
theorem spendLoop_oldest_first (l : List Grant) :
    ∀ (r : Int) (s : List (String × Int)) (A B : Grant),
      l.Pairwise (fun a b => tsLe a.timestamp b.timestamp = true) →
      (l.map Grant.id).Nodup →
      A ∈ l → B ∈ l → tsLt A.timestamp B.timestamp = true → 0 < A.points →
      (∃ d ∈ (spendLoop l r s).1, d.id = B.id) →
      ∃ d ∈ (spendLoop l r s).1, d.id = A.id ∧ d.newPoints = 0 := by
  induction l with
  | nil => intro r s A B _ _ hA _ _ _ _; simp at hA
  | cons g rest ih =>
    intro r s A B hsort hnd hA hB hts hApos hBt
    by_cases h1 : r ≤ 0
    · rw [spendLoop_nonpos _ _ _ h1] at hBt
      simp at hBt
    · obtain ⟨hgle, hsort'⟩ := List.pairwise_cons.mp hsort
      simp only [List.map_cons, List.nodup_cons] at hnd
      obtain ⟨hgid, hnd'⟩ := hnd
      have hBrest : B ∈ rest := by
        rcases List.mem_cons.mp hB with rfl | h
        · rcases List.mem_cons.mp hA with rfl | hA'
          · simp [tsLt_self] at hts
          · have hle' := hgle A hA'
            simp [tsLe] at hle'
            simp [tsLt, hle'] at hts
        · exact h
      by_cases h2 : 0 < g.points
      · rw [spendLoop_cons_pos g rest r s h1 h2] at hBt ⊢
        rcases List.mem_cons.mp hA with rfl | hArest
        · by_cases hmin : A.points ≤ r
          · refine ⟨⟨A.id, A.payer, min r A.points, A.points - min r A.points⟩,
              List.mem_cons_self _ _, rfl, ?_⟩
            rw [min_eq_right hmin]
            ring
          · have hminr : min r A.points = r := min_eq_left (by omega)
            rw [hminr, show r - r = (0:Int) by ring,
              spendLoop_nonpos rest 0 _ (le_refl 0)] at hBt
            simp at hBt
            have hB' : B.id ∈ rest.map Grant.id := List.mem_map_of_mem _ hBrest
            rw [← hBt] at hB'
            exact absurd hB' hgid
        · rcases hBt with ⟨d, hd, hdB⟩
          rcases List.mem_cons.mp hd with rfl | hd'
          · simp only [] at hdB
            have hB' : B.id ∈ rest.map Grant.id := List.mem_map_of_mem _ hBrest
            rw [← hdB] at hB'
            exact absurd hB' hgid
          · rcases ih (r - min r g.points) (summaryAdd s g.payer (min r g.points)) A B
              hsort' hnd' hArest hBrest hts hApos ⟨d, hd', hdB⟩ with ⟨d', hd'', hfacts⟩
            exact ⟨d', List.mem_cons_of_mem _ hd'', hfacts⟩
      · rw [spendLoop_cons_skip g rest r s h1 h2] at hBt ⊢
        rcases List.mem_cons.mp hA with rfl | hArest
        · exact absurd hApos h2
        · exact ih r s A B hsort' hnd' hArest hBrest hts hApos hBt

/-- C3: in a timestamp-sorted snapshot with distinct ids, a successful spend
that deducts from grant B has already deducted every strictly older
positive-point grant A down to exactly 0 — independently of the payers. -/
theorem C3_oldest_first (p : Int) (snap : List Grant) (A B : Grant)
    (summary : List (String × Int)) (rows2 : List Grant)
    (hsorted : snap.Pairwise (fun a b => tsLe a.timestamp b.timestamp = true))
    (hids : (snap.map Grant.id).Nodup)
    (hA : A ∈ snap) (hB : B ∈ snap)
    (hts : tsLt A.timestamp B.timestamp = true)
    (hApos : 0 < A.points) (hBpos : 0 < B.points)
    (hsucc : spend (some p) snap = (SpendOutcome.success summary, rows2))
    (hBtouched : ∃ d ∈ (spendLoop snap p []).1, d.id = B.id) :
    ∃ d ∈ (spendLoop snap p []).1, d.id = A.id ∧ d.newPoints = 0 :=
  spendLoop_oldest_first snap p [] A B hsorted hids hA hB hts hApos hBtouched

/-- Witness for C3 at a concrete input: grants of 5 points at t1 and t2, a
request of 7 touches the newer grant, and the older one ends at exactly 0. -/
theorem C3_oldest_first_witness :
    ∃ d ∈ (spendLoop [⟨1, "A", 5, "t1"⟩, ⟨2, "B", 5, "t2"⟩] 7 []).1,
      d.id = (⟨1, "A", 5, "t1"⟩ : Grant).id ∧ d.newPoints = 0 :=
  C3_oldest_first 7 [⟨1, "A", 5, "t1"⟩, ⟨2, "B", 5, "t2"⟩]
    ⟨1, "A", 5, "t1"⟩ ⟨2, "B", 5, "t2"⟩
    [("A", -5), ("B", -2)] [⟨1, "A", 0, "t1"⟩, ⟨2, "B", 3, "t2"⟩]
    (by decide) (by decide) (by decide) (by decide) (by decide) (by decide)
    (by decide) (by decide) (by decide)

/-! ### C6 -/

theorem objGet_of_mem_nodup (s : List (String × Int)) (e : String × Int)
    (hnd : (s.map Prod.fst).Nodup) (he : e ∈ s) : objGet e.1 s = some e.2 := by
  induction s with
  | nil => simp at he
  | cons x t ih =>
    simp only [List.map_cons, List.nodup_cons] at hnd
    rcases List.mem_cons.mp he with rfl | ht
    · simp [objGet]
    · have hne : ¬ e.1 = x.1 := by
        intro hc
        exact hnd.1 (hc ▸ List.mem_map_of_mem Prod.fst ht)
      simp only [objGet, if_neg hne]
      exact ih hnd.2 ht

/-- C6: the response of a successful /spend lists strictly negative totals,
one entry per payer actually debited and none for any other payer, each entry
being the negated sum of what was deducted from that payer, in the order the
payers were first touched by the loop. -/
theorem C6_summary_spec (p : Int) (snap : List Grant) (summary : List (String × Int))
    (rows2 : List Grant)
    (hsucc : spend (some p) snap = (SpendOutcome.success summary, rows2)) :
    (∀ e ∈ summary, e.2 < 0)
    ∧ (summary.map Prod.fst).Nodup
    ∧ (∀ e ∈ summary, e.2 = -(totalDeducted (spendLoop snap p []).1 e.1))
    ∧ (∀ d ∈ (spendLoop snap p []).1, 0 < d.deduct)
    ∧ (∀ k, k ∈ summary.map Prod.fst ↔ ∃ d ∈ (spendLoop snap p []).1, d.payer = k)
    ∧ summary.map Prod.fst = firstOccs ((spendLoop snap p []).1.map Deduction.payer) := by
  have hps : summary = (spendLoop snap p []).2 := by
    by_cases hp0 : p = 0
    · simp [spend, hp0] at hsucc
    · by_cases hlt : totalPoints snap < p
      · simp [spend, hp0, hlt] at hsucc
      · simp [spend, hp0, hlt] at hsucc
        exact hsucc.1.symm
  subst hps
  refine ⟨spendLoop_values_neg snap p [] (by simp),
          spendLoop_nodupKeys snap p [] (by simp), ?_, ?_, ?_, ?_⟩
  · intro e he
    have hself := objGet_of_mem_nodup _ e (spendLoop_nodupKeys snap p [] (by simp)) he
    have hval := spendLoop_objGet snap p [] e.1
    rw [hself] at hval
    simpa [objGet] using hval
  · intro d hd
    rcases spendLoop_deds snap p [] d hd with ⟨g, _, _, _, _, hdpos, _, _⟩
    exact hdpos
  · intro k
    have := spendLoop_mem_keys snap p [] k
    simpa using this
  · have := spendLoop_keys_order snap p []
    simpa [firstOccs] using this

/-- Witness for C6 at a concrete input: grants of 2 and 5 points, request 3. -/
theorem C6_summary_spec_witness :
    (∀ e ∈ [("X", (-2 : Int)), ("Y", -1)], e.2 < 0)
    ∧ ((([("X", (-2 : Int)), ("Y", -1)]).map Prod.fst).Nodup)
    ∧ (∀ e ∈ [("X", (-2 : Int)), ("Y", -1)],
        e.2 = -(totalDeducted (spendLoop [⟨1, "X", 2, "t1"⟩, ⟨2, "Y", 5, "t2"⟩] 3 []).1 e.1))
    ∧ (∀ d ∈ (spendLoop [⟨1, "X", 2, "t1"⟩, ⟨2, "Y", 5, "t2"⟩] 3 []).1, 0 < d.deduct)
    ∧ (∀ k, k ∈ ([("X", (-2 : Int)), ("Y", -1)]).map Prod.fst ↔
        ∃ d ∈ (spendLoop [⟨1, "X", 2, "t1"⟩, ⟨2, "Y", 5, "t2"⟩] 3 []).1, d.payer = k)
    ∧ ([("X", (-2 : Int)), ("Y", -1)]).map Prod.fst =
        firstOccs ((spendLoop [⟨1, "X", 2, "t1"⟩, ⟨2, "Y", 5, "t2"⟩] 3 []).1.map
          Deduction.payer) :=
  C6_summary_spec 3 [⟨1, "X", 2, "t1"⟩, ⟨2, "Y", 5, "t2"⟩] [("X", -2), ("Y", -1)]
    [⟨1, "X", 0, "t1"⟩, ⟨2, "Y", 4, "t2"⟩] (by decide)

/-! ### C7 -/

theorem payerSum_cons (g : Grant) (t : List Grant) (k : String) :
    payerSum (g :: t) k = (if g.payer = k then g.points else 0) + payerSum t k := by
  by_cases h : g.payer = k <;> simp [payerSum, List.filter_cons, h]

theorem balanceStep_keys (acc : List (String × Int)) (g : Grant) :
    (balanceStep acc g).map Prod.fst =
      if g.payer ∈ acc.map Prod.fst then acc.map Prod.fst else acc.map Prod.fst ++ [g.payer] := by
  cases h : objGet g.payer acc with
  | none =>
    have hk : g.payer ∉ acc.map Prod.fst := (objGet_eq_none_iff _ _).mp h
    simp [balanceStep, h, hk]
  | some v =>
    have hk : g.payer ∈ acc.map Prod.fst := by
      by_contra hc
      rw [(objGet_eq_none_iff _ _).mpr hc] at h
      exact Option.noConfusion h
    have heq : balanceStep acc g =
        acc.map (fun e => if e.1 = g.payer then (e.1, e.2 + g.points) else e) := by
      simp [balanceStep, h]
    rw [heq, map_fst_upd, if_pos hk]

theorem balanceStep_mem_keys (acc : List (String × Int)) (g : Grant) (k : String) :
    k ∈ (balanceStep acc g).map Prod.fst ↔ k ∈ acc.map Prod.fst ∨ k = g.payer := by
  rw [balanceStep_keys]
  by_cases hk : g.payer ∈ acc.map Prod.fst
  · rw [if_pos hk]
    constructor
    · exact fun h => Or.inl h
    · rintro (h | rfl)
      · exact h
      · exact hk
  · rw [if_neg hk]
    simp

theorem balanceStep_nodup (acc : List (String × Int)) (g : Grant)
    (h : (acc.map Prod.fst).Nodup) : ((balanceStep acc g).map Prod.fst).Nodup := by
  rw [balanceStep_keys]
  by_cases hk : g.payer ∈ acc.map Prod.fst
  · simpa [hk]
  · simp [hk, List.nodup_append, h]

theorem balanceStep_objGet_self (acc : List (String × Int)) (g : Grant) :
    objGet g.payer (balanceStep acc g) = some ((objGet g.payer acc).getD 0 + g.points) := by
  cases h : objGet g.payer acc with
  | none =>
    simp only [balanceStep, h]
    rw [objGet_append, h]
    simp [objGet]
  | some v =>
    simp only [balanceStep, h]
    rw [objGet_map_upd_self acc g.payer (fun e => e.2 + g.points) v h]
    simp

theorem balanceStep_objGet_ne (acc : List (String × Int)) (g : Grant) (k : String)
    (h : k ≠ g.payer) : objGet k (balanceStep acc g) = objGet k acc := by
  cases hg : objGet g.payer acc with
  | none =>
    simp only [balanceStep, hg]
    rw [objGet_append]
    cases hg' : objGet k acc with
    | none => simp [objGet, h]
    | some v => simp
  | some v =>
    simp only [balanceStep, hg]
    rw [objGet_map_upd_ne acc g.payer k _ h]

theorem balance_fold_nodup (l : List Grant) : ∀ acc : List (String × Int),
    (acc.map Prod.fst).Nodup → ((l.foldl balanceStep acc).map Prod.fst).Nodup := by
  induction l with
  | nil => intro acc h; simpa
  | cons g t ih => intro acc h; exact ih _ (balanceStep_nodup acc g h)

theorem balance_fold_objGet (l : List Grant) : ∀ (acc : List (String × Int)) (k : String),
    (objGet k (l.foldl balanceStep acc)).getD 0 = (objGet k acc).getD 0 + payerSum l k := by
  induction l with
  | nil => intro acc k; simp [payerSum]
  | cons g t ih =>
    intro acc k
    rw [List.foldl_cons, ih (balanceStep acc g) k, payerSum_cons]
    by_cases hk : k = g.payer
    · subst hk
      rw [balanceStep_objGet_self]
      simp
      omega
    · rw [balanceStep_objGet_ne acc g k hk]
      have : ¬ g.payer = k := fun hc => hk hc.symm
      rw [if_neg this]
      omega

theorem balance_fold_mem (l : List Grant) : ∀ (acc : List (String × Int)) (k : String),
    k ∈ (l.foldl balanceStep acc).map Prod.fst ↔
      k ∈ acc.map Prod.fst ∨ ∃ g ∈ l, g.payer = k := by
  induction l with
  | nil => intro acc k; simp
  | cons g t ih =>
    intro acc k
    rw [List.foldl_cons]
    constructor
    · intro hmem
      rcases (ih _ k).mp hmem with hs | ⟨g', hg', hk⟩
      · rcases (balanceStep_mem_keys acc g k).mp hs with hs' | rfl
        · exact Or.inl hs'
        · exact Or.inr ⟨g, List.mem_cons_self _ _, rfl⟩
      · exact Or.inr ⟨g', List.mem_cons_of_mem _ hg', hk⟩
    · intro hmem
      rcases hmem with hs | ⟨g', hg', hk⟩
      · exact (ih _ k).mpr (Or.inl ((balanceStep_mem_keys acc g k).mpr (Or.inl hs)))
      · rcases List.mem_cons.mp hg' with rfl | hg''
        · exact (ih _ k).mpr (Or.inl ((balanceStep_mem_keys acc g' k).mpr (Or.inr hk.symm)))
        · exact (ih _ k).mpr (Or.inr ⟨g', hg'', hk⟩)

/-- C7: /balance maps each listed payer to the sum of that payer's grant
points over the whole snapshot, lists exactly the payers owning at least one
grant, and yields the empty mapping on the empty ledger. -/
theorem C7_balance_spec (snap : List Grant) :
    (∀ e ∈ balance snap, e.2 = payerSum snap e.1)
    ∧ (∀ k, k ∈ (balance snap).map Prod.fst ↔ ∃ g ∈ snap, g.payer = k)
    ∧ balance ([] : List Grant) = [] := by
  refine ⟨?_, ?_, rfl⟩
  · intro e he
    have hnd : ((balance snap).map Prod.fst).Nodup :=
      balance_fold_nodup snap [] (by simp)
    have hself := objGet_of_mem_nodup (balance snap) e hnd he
    have hval := balance_fold_objGet snap [] e.1
    rw [show snap.foldl balanceStep [] = balance snap from rfl, hself] at hval
    simpa [objGet] using hval
  · intro k
    have := balance_fold_mem snap [] k
    simpa [balance] using this

/-- Witness for C7 at a concrete input: one DANNON grant of 300 points. -/
theorem C7_balance_spec_witness :
    (∀ e ∈ balance [⟨1, "DANNON", 300, "t1"⟩], e.2 = payerSum [⟨1, "DANNON", 300, "t1"⟩] e.1)
    ∧ (∀ k, k ∈ (balance [⟨1, "DANNON", 300, "t1"⟩]).map Prod.fst ↔
        ∃ g ∈ [(⟨1, "DANNON", 300, "t1"⟩ : Grant)], g.payer = k)
    ∧ balance ([] : List Grant) = [] :=
  C7_balance_spec [⟨1, "DANNON", 300, "t1"⟩]

/-! ### C4 -/

theorem mem_insertByTs (g x : Grant) (l : List Grant) :
    x ∈ insertByTs g l ↔ x = g ∨ x ∈ l := by
  induction l with
  | nil => simp [insertByTs]
  | cons h t ih =>
    by_cases hc : tsLt h.timestamp g.timestamp = true
    · simp [insertByTs, hc, ih]
      try tauto
    · simp [insertByTs, hc]
      try tauto

theorem mem_sortByTimestamp (x : Grant) (l : List Grant) :
    x ∈ sortByTimestamp l ↔ x ∈ l := by
  induction l with
  | nil => simp [sortByTimestamp]
  | cons g t ih => simp [sortByTimestamp, mem_insertByTs, ih]

/-- One operation keeps every stored points value non-negative, provided an
/add carries a non-negative amount. -/
theorem applyOp_nonneg (s : DbState) (op : Op) (hop : addNonneg op = true)
    (hs : ∀ g ∈ s.rows, 0 ≤ g.points) : ∀ g ∈ (applyOp s op).rows, 0 ≤ g.points := by
  cases op with
  | balanceOp => exact hs
  | addOp req =>
    have hnn : (0 : Int) ≤ req.points.getD 0 := by simpa [addNonneg] using hop
    intro g' hg'
    by_cases h1 : req.payer.getD "" = ""
    · simp [applyOp, addHandler, h1] at hg'
      exact hs g' hg'
    · by_cases h2 : req.points.getD 0 = 0
      · simp [applyOp, addHandler, h1, h2] at hg'
        exact hs g' hg'
      · by_cases h3 : req.timestamp.getD "" = ""
        · simp [applyOp, addHandler, h1, h2, h3] at hg'
          exact hs g' hg'
        · simp [applyOp, addHandler, h1, h2, h3] at hg'
          rcases hg' with hg0 | hg0
          · exact hs g' hg0
          · rw [hg0]
            exact hnn
  | spendOp p =>
    intro g' hg'
    have hsortnn : ∀ g0 ∈ sortByTimestamp s.rows, 0 ≤ g0.points :=
      fun g0 hg0 => hs g0 ((mem_sortByTimestamp g0 s.rows).mp hg0)
    simp only [applyOp] at hg'
    cases p with
    | none =>
      simp [spend] at hg'
      exact hsortnn g' hg'
    | some q =>
      by_cases hq : q = 0
      · simp [spend, hq] at hg'
        exact hsortnn g' hg'
      · by_cases hlt : totalPoints (sortByTimestamp s.rows) < q
        · simp [spend, hq, hlt] at hg'
          exact hsortnn g' hg'
        · simp [spend, hq, hlt] at hg'
          refine applyDeductions_forall (fun x => 0 ≤ x) _ _ hsortnn ?_ g' hg'
          intro d hd
          rcases spendLoop_deds _ _ _ d hd with ⟨g0, _, _, _, _, _, hdle, hnew⟩
          rw [hnew]
          omega

/-- The non-negativity invariant holds after any run of operations whose /add
amounts are non-negative. -/
theorem runOps_nonneg (ops : List Op) : ∀ (s : DbState),
    (∀ op ∈ ops, addNonneg op = true) → (∀ g ∈ s.rows, 0 ≤ g.points) →
    ∀ g ∈ (runOps s ops).rows, 0 ≤ g.points := by
  induction ops with
  | nil => intro s _ hs; exact hs
  | cons op ops ih =>
    intro s hops hs
    exact ih (applyOp s op) (fun o ho => hops o (List.mem_cons_of_mem _ ho))
      (applyOp_nonneg s op (hops op (List.mem_cons_self _ _)) hs)

/-- Every row of the updated table is some original row whose points are either
untouched or replaced by the value one of the updates wrote. -/
theorem applyDeductions_mem (ds : List Deduction) : ∀ (rows : List Grant),
    ∀ g' ∈ applyDeductions rows ds, ∃ g ∈ rows,
      g'.id = g.id ∧ g'.payer = g.payer ∧ g'.timestamp = g.timestamp ∧
      (g'.points = g.points ∨ ∃ d ∈ ds, d.id = g.id ∧ g'.points = d.newPoints) := by
  induction ds with
  | nil =>
    intro rows g' hg'
    exact ⟨g', hg', rfl, rfl, rfl, Or.inl rfl⟩
  | cons d ds ih =>
    intro rows g' hg'
    have hstep : applyDeductions rows (d :: ds) =
        applyDeductions (updatePointsSql rows d.id d.newPoints) ds := rfl
    rw [hstep] at hg'
    rcases ih _ g' hg' with ⟨g1, hg1, hid1, hp1, ht1, hpts1⟩
    simp only [updatePointsSql, List.mem_map] at hg1
    rcases hg1 with ⟨g0, hg0, hfg⟩
    by_cases hid : g0.id = d.id
    · rw [if_pos hid] at hfg
      refine ⟨g0, hg0, ?_, ?_, ?_, ?_⟩
      · rw [hid1, ← hfg]
      · rw [hp1, ← hfg]
      · rw [ht1, ← hfg]
      · rcases hpts1 with hsame | ⟨d', hd', hdid, hdp⟩
        · refine Or.inr ⟨d, List.mem_cons_self _ _, hid.symm, ?_⟩
          rw [hsame, ← hfg]
        · refine Or.inr ⟨d', List.mem_cons_of_mem _ hd', ?_, hdp⟩
          rw [hdid, ← hfg]
    · rw [if_neg hid] at hfg
      subst hfg
      refine ⟨g0, hg0, hid1, hp1, ht1, ?_⟩
      rcases hpts1 with h | ⟨d', hd', ha, hb⟩
      · exact Or.inl h
      · exact Or.inr ⟨d', List.mem_cons_of_mem _ hd', ha, hb⟩

/-- In a table with pairwise distinct ids two rows with the same id coincide. -/
theorem id_inj_of_nodup (rows : List Grant) (h : (rows.map Grant.id).Nodup) :
    ∀ g ∈ rows, ∀ g2 ∈ rows, g.id = g2.id → g = g2 := by
  induction rows with
  | nil => intro g hg; simp at hg
  | cons x t ih =>
    simp only [List.map_cons, List.nodup_cons] at h
    intro g hg g2 hg2 hid
    rcases List.mem_cons.mp hg with rfl | hgt
    · rcases List.mem_cons.mp hg2 with rfl | hg2t
      · rfl
      · have hm := List.mem_map_of_mem Grant.id hg2t
        rw [← hid] at hm
        exact absurd hm h.1
    · rcases List.mem_cons.mp hg2 with rfl | hg2t
      · have hm := List.mem_map_of_mem Grant.id hgt
        rw [hid] at hm
        exact absurd hm h.1
      · exact ih h.2 g hgt g2 hg2t hid

/-- The /spend route never pushes a row upward: on a table with distinct ids, every
resulting row is the original row with at most its original points. -/
theorem spend_rows_decrease (p : Int) (rows : List Grant)
    (hids : (rows.map Grant.id).Nodup) :
    ∀ g' ∈ (spend (some p) rows).2, ∃ g ∈ rows,
      g'.id = g.id ∧ g'.payer = g.payer ∧ g'.timestamp = g.timestamp ∧
        g'.points ≤ g.points := by
  intro g' hg'
  by_cases hq : p = 0
  · simp [spend, hq] at hg'
    exact ⟨g', hg', rfl, rfl, rfl, le_refl _⟩
  · by_cases hlt : totalPoints rows < p
    · simp [spend, hq, hlt] at hg'
      exact ⟨g', hg', rfl, rfl, rfl, le_refl _⟩
    · simp [spend, hq, hlt] at hg'
      rcases applyDeductions_mem _ _ g' hg' with ⟨g, hg, hid, hp, ht, hpts⟩
      refine ⟨g, hg, hid, hp, ht, ?_⟩
      rcases hpts with hsame | ⟨d, hd, hdid, hdp⟩
      · omega
      · rcases spendLoop_deds rows p [] d hd with ⟨g2, hg2, hdid2, _, _, hdpos, hdle, hnew⟩
        have hgg2 : g = g2 := id_inj_of_nodup rows hids g hg g2 hg2
          (by rw [← hdid]; exact hdid2)
        rw [hdp, hnew, ← hgg2]
        omega

/-- The /add handler either leaves the table unchanged (a validation failure)
or appends exactly one new row. -/
theorem addHandler_append_or_same (req : AddRequest) (rows : List Grant) (nextId : Nat) :
    (addHandler req rows nextId).2 = rows ∨
    ∃ g, (addHandler req rows nextId).2 = rows ++ [g] := by
  by_cases h1 : req.payer.getD "" = ""
  · left
    simp [addHandler, h1]
  · by_cases h2 : req.points.getD 0 = 0
    · left
      simp [addHandler, h1, h2]
    · by_cases h3 : req.timestamp.getD "" = ""
      · left
        simp [addHandler, h1, h2, h3]
      · right
        refine ⟨⟨nextId, req.payer.getD "", req.points.getD 0, req.timestamp.getD ""⟩, ?_⟩
        simp [addHandler, h1, h2, h3]

/-- C4 counterexample: starting from the empty ledger, a single /add request
carrying -5 points is accepted (a negative number is truthy) and stores a
grant with negative points, so the invariant claimed for arbitrary operation
sequences is false. -/
theorem C4_counterexample :
    ¬ (∀ g ∈ (runOps initialDb
        [Op.addOp ⟨some "DANNON", some (-5), some "2020-11-02T14:00:00Z"⟩]).rows,
        0 ≤ g.points) := by decide

/-- C4 amended: provided every /add carries a non-negative points value, no
grant is ever negative after any sequence of operations; /add only leaves the
table unchanged or appends one grant; and /spend maps every row to itself with
its points either untouched or strictly decreased — never increased and never
below zero. -/
theorem C4_no_negative_grants :
    (∀ ops : List Op, (∀ op ∈ ops, addNonneg op = true) →
      ∀ g ∈ (runOps initialDb ops).rows, 0 ≤ g.points)
    ∧ (∀ (req : AddRequest) (rows : List Grant) (nextId : Nat),
        (addHandler req rows nextId).2 = rows ∨
        ∃ g, (addHandler req rows nextId).2 = rows ++ [g])
    ∧ (∀ (p : Int) (rows : List Grant), (rows.map Grant.id).Nodup →
        ∀ g' ∈ (spend (some p) rows).2, ∃ g ∈ rows,
          g'.id = g.id ∧ g'.payer = g.payer ∧ g'.timestamp = g.timestamp ∧
            g'.points ≤ g.points) :=
  ⟨fun ops hops => runOps_nonneg ops initialDb hops (by simp [initialDb]),
   addHandler_append_or_same, spend_rows_decrease⟩

/-- Witness for the amended C4 at a concrete input: a single valid /add of 300
points leaves only non-negative grants. -/
theorem C4_no_negative_grants_witness :
    ∀ g ∈ (runOps initialDb [Op.addOp ⟨some "DANNON", some 300, some "t1"⟩]).rows,
      0 ≤ g.points :=
  C4_no_negative_grants.1 [Op.addOp ⟨some "DANNON", some 300, some "t1"⟩] (by decide)
